import Mathlib

/-!
Shallow embedding of the EEG project's ring buffer (`src/ring_buffer.c`,
`include/ring_buffer.h`, `include/test_helpers.h`) and proofs about it.

Modelling conventions:
- Sample values are an arbitrary type `α`: the buffer stores and returns
  floats without any arithmetic on them, so their representation is opaque.
- The C struct's `int` fields `head`, `tail`, `curr_num_values`,
  `max_num_values` are modelled as `Nat`: every reachable value is
  non-negative and bounded by the capacity, far below any `int` overflow.
- The malloc'd float array is modelled as a total function `Nat → α`
  (its contents); the allocated extent is tracked by `max_num_values`
  and, for initialization, by the `storage` field of `init_result`.
- The pthread mutex: in sequential execution `pthread_mutex_trylock`
  succeeds immediately (no contention), so the bounded-retry loop at the
  top of write/overwrite/read is the identity and is not represented.
  For `ring_buffer_init` the fact that `pthread_mutex_init` runs before
  the capacity check is represented by the `lock_created` flag of
  `init_result`, and `ring_buffer_destroy`'s frees by `destroy_effect`.
- `malloc` success/failure is a boolean parameter `alloc_ok`, and the
  junk contents of the fresh allocation a parameter `mem`.
-/

namespace EEG

/-- The `ring_buffer` struct of `ring_buffer.h` (minus the mutex, see the
module comment): data array contents, read index, write index, current
element count, capacity. -/
structure ring_buffer (α : Type) where
  buffer : Nat → α
  head : Nat
  tail : Nat
  curr_num_values : Nat
  max_num_values : Nat

/-- `ring_buffer_empty`: `curr_num_values == 0`. -/
def ring_buffer_empty (rb : ring_buffer α) : Bool :=
  rb.curr_num_values == 0

/-- `ring_buffer_full`: `curr_num_values == max_num_values`. -/
def ring_buffer_full (rb : ring_buffer α) : Bool :=
  rb.curr_num_values == rb.max_num_values

/-- `ring_buffer_write`: if the buffer is full, return `false` and leave the
state unchanged; otherwise store `value` at `tail`, increment the count,
advance `tail` modulo the capacity, and return `true`. Returns the flag
paired with the post-state. -/
def ring_buffer_write (rb : ring_buffer α) (value : α) : Bool × ring_buffer α :=
  if ring_buffer_full rb then
    (false, rb)
  else
    (true,
      { rb with
        buffer := fun i => if i = rb.tail then value else rb.buffer i
        curr_num_values := rb.curr_num_values + 1
        tail := (rb.tail + 1) % rb.max_num_values })

/-- `ring_buffer_overwrite`: transcribed separately from its own body in
`ring_buffer.c` (lines 135-168); the body is identical to
`ring_buffer_write`, including the early `return false` when full. -/
def ring_buffer_overwrite (rb : ring_buffer α) (value : α) : Bool × ring_buffer α :=
  if ring_buffer_full rb then
    (false, rb)
  else
    (true,
      { rb with
        buffer := fun i => if i = rb.tail then value else rb.buffer i
        curr_num_values := rb.curr_num_values + 1
        tail := (rb.tail + 1) % rb.max_num_values })

/-- `ring_buffer_read`: `result` is the caller's out-parameter cell content
before the call. If the buffer is empty, return `false` with the cell and
state untouched; otherwise return `true`, the value at `head`, decrement the
count and advance `head` modulo the capacity. -/
def ring_buffer_read (rb : ring_buffer α) (result : α) : Bool × α × ring_buffer α :=
  if ring_buffer_empty rb then
    (false, result, rb)
  else
    (true, rb.buffer rb.head,
      { rb with
        curr_num_values := rb.curr_num_values - 1
        head := (rb.head + 1) % rb.max_num_values })

/-- The buffer state produced by a successful `ring_buffer_init capacity`:
`head = tail = curr_num_values = 0`, capacity recorded, storage holding the
junk contents `mem` of the fresh allocation. -/
def rb_init_state (capacity : Nat) (mem : Nat → α) : ring_buffer α :=
  { buffer := mem, head := 0, tail := 0, curr_num_values := 0, max_num_values := capacity }

/-- Result of `ring_buffer_init`: the returned flag, whether
`pthread_mutex_init` has run without a matching destroy, the retained
storage allocation (number of samples) if any, and the struct state. -/
structure init_result (α : Type) where
  ok : Bool
  lock_created : Bool
  storage : Option Nat
  state : ring_buffer α

/-- `ring_buffer_init` (ring_buffer.c lines 37-52): `pthread_mutex_init` runs
first, unconditionally; then `capacity <= 0` fails; then malloc (success
given by `alloc_ok`, fresh contents by `mem`) may fail after
`max_num_values` has already been set; on success the indices and count are
zeroed. `rb0` is the caller's struct before the call. -/
def ring_buffer_init (rb0 : ring_buffer α) (capacity : Int) (alloc_ok : Bool)
    (mem : Nat → α) : init_result α :=
  if capacity ≤ 0 then
    { ok := false, lock_created := true, storage := none, state := rb0 }
  else if alloc_ok = false then
    { ok := false, lock_created := true, storage := none,
      state := { rb0 with max_num_values := capacity.toNat } }
  else
    { ok := true, lock_created := true, storage := some capacity.toNat,
      state := rb_init_state capacity.toNat mem }

/-- What a call to `ring_buffer_destroy` frees: the float array, the mutex,
the struct itself. -/
structure destroy_effect where
  freed_storage : Bool
  destroyed_lock : Bool
  freed_struct : Bool
deriving DecidableEq

/-- `ring_buffer_destroy` (ring_buffer.c lines 219-229): on a NULL handle it
returns at once performing no frees; on a live handle it frees the array,
destroys the mutex and frees the struct. -/
def ring_buffer_destroy : Option (ring_buffer α) → destroy_effect
  | none => { freed_storage := false, destroyed_lock := false, freed_struct := false }
  | some _ => { freed_storage := true, destroyed_lock := true, freed_struct := true }

/-- The `SAFE_DESTROY` macro of `test_helpers.h`: call `ring_buffer_destroy`
only on a non-NULL handle, then null the handle. Returns the handle after
the macro together with the frees performed. -/
def SAFE_DESTROY (h : Option (ring_buffer α)) : Option (ring_buffer α) × destroy_effect :=
  match h with
  | none => (none, { freed_storage := false, destroyed_lock := false, freed_struct := false })
  | some rb => (none, ring_buffer_destroy (some rb))

/-- A single API call on a buffer, for reachability statements. -/
inductive rb_op (α : Type) where
  | wr (v : α)
  | rd

/-- State transition of one API call; the read's out-cell junk is irrelevant
to the post-state. -/
def rb_step (rb : ring_buffer α) : rb_op α → ring_buffer α
  | .wr v => (ring_buffer_write rb v).2
  | .rd => (ring_buffer_read rb (rb.buffer 0)).2.2

/-- Run a sequence of API calls. -/
def rb_run (rb : ring_buffer α) (ops : List (rb_op α)) : ring_buffer α :=
  ops.foldl rb_step rb

/-- Write each value of `vs` in order; final state and the list of returned
flags in call order. -/
def write_list : ring_buffer α → List α → ring_buffer α × List Bool
  | rb, [] => (rb, [])
  | rb, v :: vs =>
    let r := ring_buffer_write rb v
    let rest := write_list r.2 vs
    (rest.1, r.1 :: rest.2)

/-- Perform `n` reads; final state and the list of (flag, delivered value)
pairs in call order. On a failed read the delivered value is the junk left
in the out-cell (here the cell is seeded with `rb.buffer 0`). -/
def read_n : ring_buffer α → Nat → ring_buffer α × List (Bool × α)
  | rb, 0 => (rb, [])
  | rb, n + 1 =>
    let r := ring_buffer_read rb (rb.buffer 0)
    let rest := read_n r.2.2 n
    (rest.1, (r.1, r.2.1) :: rest.2)

/-- Repeated fill-then-drain: for each round `vs`, write all of `vs`, then
read `vs.length` times. Returns the final state, all write flags in order,
and all read results in order. -/
def run_cycles : ring_buffer α → List (List α) → ring_buffer α × List Bool × List (Bool × α)
  | rb, [] => (rb, [], [])
  | rb, vs :: rest =>
    let w := write_list rb vs
    let r := read_n w.1 vs.length
    let t := run_cycles r.1 rest
    (t.1, w.2 ++ t.2.1, r.2 ++ t.2.2)

/-- The structural invariant of an initialized buffer (spec §3). -/
def rb_inv (rb : ring_buffer α) : Prop :=
  0 < rb.max_num_values ∧
  rb.curr_num_values ≤ rb.max_num_values ∧
  rb.head < rb.max_num_values ∧
  rb.tail < rb.max_num_values ∧
  rb.tail = (rb.head + rb.curr_num_values) % rb.max_num_values

instance (rb : ring_buffer α) : Decidable (rb_inv rb) := by
  unfold rb_inv; infer_instance

/-- Abstraction to the FIFO queue the buffer represents: the `count` values
starting at `head`, oldest first. -/
def rb_list (rb : ring_buffer α) : List α :=
  (List.range rb.curr_num_values).map (fun i => rb.buffer ((rb.head + i) % rb.max_num_values))

/-- Concrete full capacity-1 buffer holding the value 1, reached by one
write on a fresh buffer; used as counterexample state. -/
def crb7 : ring_buffer Int :=
  (ring_buffer_write (rb_init_state 1 (fun _ => 0)) 1).2

/-! ### Helper lemmas -/

theorem rb_list_length (rb : ring_buffer α) : (rb_list rb).length = rb.curr_num_values := by
  simp [rb_list]

theorem rb_list_of_empty (rb : ring_buffer α) (h : rb.curr_num_values = 0) :
    rb_list rb = [] := by
  simp [rb_list, h]

theorem rb_init_state_inv (cap : Nat) (h : 0 < cap) (mem : Nat → α) :
    rb_inv (rb_init_state cap mem) := by
  refine ⟨h, ?_, h, h, ?_⟩ <;> simp [rb_init_state]

theorem write_full_spec (rb : ring_buffer α) (v : α)
    (h : rb.curr_num_values = rb.max_num_values) :
    ring_buffer_write rb v = (false, rb) := by
  simp [ring_buffer_write, ring_buffer_full, h]

theorem read_empty_spec (rb : ring_buffer α) (r0 : α) (h : rb.curr_num_values = 0) :
    ring_buffer_read rb r0 = (false, r0, rb) := by
  simp [ring_buffer_read, ring_buffer_empty, h]

theorem write_spec (rb : ring_buffer α) (v : α) (hinv : rb_inv rb)
    (h : rb.curr_num_values < rb.max_num_values) :
    (ring_buffer_write rb v).1 = true ∧
    rb_inv (ring_buffer_write rb v).2 ∧
    rb_list (ring_buffer_write rb v).2 = rb_list rb ++ [v] ∧
    (ring_buffer_write rb v).2.head = rb.head ∧
    (ring_buffer_write rb v).2.curr_num_values = rb.curr_num_values + 1 ∧
    (ring_buffer_write rb v).2.max_num_values = rb.max_num_values := by
  obtain ⟨hcap, hle, hhd, htl, heq⟩ := hinv
  have hfull : ring_buffer_full rb = false := by
    simp [ring_buffer_full]; omega
  have hw : ring_buffer_write rb v =
      (true, { rb with
        buffer := fun i => if i = rb.tail then v else rb.buffer i
        curr_num_values := rb.curr_num_values + 1
        tail := (rb.tail + 1) % rb.max_num_values }) := by
    simp [ring_buffer_write, hfull]
  rw [hw]
  refine ⟨rfl, ⟨hcap, ?_, hhd, Nat.mod_lt _ hcap, ?_⟩, ?_, rfl, rfl, rfl⟩
  · show rb.curr_num_values + 1 ≤ rb.max_num_values
    omega
  · show (rb.tail + 1) % rb.max_num_values
      = (rb.head + (rb.curr_num_values + 1)) % rb.max_num_values
    rw [heq, Nat.mod_add_mod, Nat.add_assoc]
  · simp only [rb_list, List.range_succ, List.map_append, List.map_cons, List.map_nil]
    congr 1
    · apply List.map_congr_left
      intro i hi
      have hi' : i < rb.curr_num_values := List.mem_range.mp hi
      have hne : (rb.head + i) % rb.max_num_values ≠ rb.tail := by
        intro hcon
        rw [heq] at hcon
        have hmc : i % rb.max_num_values = rb.curr_num_values % rb.max_num_values :=
          Nat.ModEq.add_left_cancel' rb.head hcon
        rw [Nat.mod_eq_of_lt (by omega), Nat.mod_eq_of_lt (by omega)] at hmc
        omega
      simp [hne]
    · rw [heq]
      simp

theorem read_spec (rb : ring_buffer α) (r0 : α) (hinv : rb_inv rb)
    (h : 0 < rb.curr_num_values) :
    (ring_buffer_read rb r0).1 = true ∧
    (ring_buffer_read rb r0).2.1 = rb.buffer rb.head ∧
    rb_inv (ring_buffer_read rb r0).2.2 ∧
    rb_list rb = rb.buffer rb.head :: rb_list (ring_buffer_read rb r0).2.2 ∧
    (ring_buffer_read rb r0).2.2.tail = rb.tail ∧
    (ring_buffer_read rb r0).2.2.curr_num_values = rb.curr_num_values - 1 ∧
    (ring_buffer_read rb r0).2.2.max_num_values = rb.max_num_values ∧
    (ring_buffer_read rb r0).2.2.buffer = rb.buffer := by
  obtain ⟨hcap, hle, hhd, htl, heq⟩ := hinv
  obtain ⟨c', hc⟩ : ∃ c', rb.curr_num_values = c' + 1 := ⟨rb.curr_num_values - 1, by omega⟩
  have hemp : ring_buffer_empty rb = false := by
    simp [ring_buffer_empty]; omega
  have hr : ring_buffer_read rb r0 =
      (true, rb.buffer rb.head, { rb with
        curr_num_values := rb.curr_num_values - 1
        head := (rb.head + 1) % rb.max_num_values }) := by
    simp [ring_buffer_read, hemp]
  rw [hr]
  refine ⟨rfl, rfl, ⟨hcap, ?_, Nat.mod_lt _ hcap, htl, ?_⟩, ?_, rfl, rfl, rfl, rfl⟩
  · show rb.curr_num_values - 1 ≤ rb.max_num_values
    omega
  · show rb.tail = ((rb.head + 1) % rb.max_num_values + (rb.curr_num_values - 1))
      % rb.max_num_values
    rw [heq, hc, Nat.mod_add_mod, Nat.add_sub_cancel]
    congr 1
    omega
  · simp only [rb_list, hc, List.range_succ_eq_map, List.map_cons, List.map_map]
    congr 1
    · congr 1
      simp [Nat.mod_eq_of_lt hhd]
    · simp only [Nat.add_sub_cancel]
      apply List.map_congr_left
      intro i _
      simp only [Function.comp_apply, Nat.mod_add_mod]
      congr 2
      omega

theorem write_list_spec : ∀ (vs : List α) (rb : ring_buffer α), rb_inv rb →
    rb.curr_num_values + vs.length ≤ rb.max_num_values →
    (write_list rb vs).2 = List.replicate vs.length true ∧
    rb_inv (write_list rb vs).1 ∧
    rb_list (write_list rb vs).1 = rb_list rb ++ vs ∧
    (write_list rb vs).1.head = rb.head ∧
    (write_list rb vs).1.curr_num_values = rb.curr_num_values + vs.length ∧
    (write_list rb vs).1.max_num_values = rb.max_num_values
  | [], rb, hinv, _ => by
    exact ⟨rfl, hinv, (List.append_nil _).symm, rfl, rfl, rfl⟩
  | v :: vs, rb, hinv, hfit => by
    have hlt : rb.curr_num_values < rb.max_num_values := by
      simp only [List.length_cons] at hfit; omega
    obtain ⟨hf, hinv', hlist, hhd, hcnt, hmax⟩ := write_spec rb v hinv hlt
    have hfit' : (ring_buffer_write rb v).2.curr_num_values + vs.length
        ≤ (ring_buffer_write rb v).2.max_num_values := by
      rw [hcnt, hmax]
      simp only [List.length_cons] at hfit
      omega
    obtain ⟨ihf, ihinv, ihlist, ihhd, ihcnt, ihmax⟩ := write_list_spec vs _ hinv' hfit'
    simp only [write_list]
    refine ⟨?_, ihinv, ?_, ?_, ?_, ?_⟩
    · simp [hf, ihf, List.replicate_succ]
    · rw [ihlist, hlist, List.append_assoc, List.singleton_append]
    · rw [ihhd, hhd]
    · rw [ihcnt, hcnt, List.length_cons]
      omega
    · rw [ihmax, hmax]

theorem read_n_spec : ∀ (n : Nat) (rb : ring_buffer α), rb_inv rb →
    rb.curr_num_values = n →
    (read_n rb n).2 = (rb_list rb).map (fun v => (true, v)) ∧
    rb_inv (read_n rb n).1 ∧
    (read_n rb n).1.curr_num_values = 0 ∧
    (read_n rb n).1.tail = rb.tail ∧
    (read_n rb n).1.max_num_values = rb.max_num_values
  | 0, rb, hinv, hn => by
    refine ⟨?_, hinv, hn, rfl, rfl⟩
    rw [rb_list_of_empty rb hn]
    rfl
  | n + 1, rb, hinv, hn => by
    have hpos : 0 < rb.curr_num_values := by omega
    obtain ⟨hf, hv, hinv', hlist, htl, hcnt, hmax, _⟩ :=
      read_spec rb (rb.buffer 0) hinv hpos
    have hn' : (ring_buffer_read rb (rb.buffer 0)).2.2.curr_num_values = n := by
      rw [hcnt, hn]
      omega
    obtain ⟨ihres, ihinv, ihcnt, ihtl, ihmax⟩ := read_n_spec n _ hinv' hn'
    simp only [read_n]
    refine ⟨?_, ihinv, ihcnt, ?_, ?_⟩
    · rw [ihres, hlist, List.map_cons, hf, hv]
    · rw [ihtl, htl]
    · rw [ihmax, hmax]

theorem rb_step_inv (rb : ring_buffer α) (op : rb_op α) (hinv : rb_inv rb) :
    rb_inv (rb_step rb op) := by
  cases op with
  | wr v =>
    show rb_inv (ring_buffer_write rb v).2
    by_cases h : rb.curr_num_values < rb.max_num_values
    · exact (write_spec rb v hinv h).2.1
    · have hfull : rb.curr_num_values = rb.max_num_values := by
        obtain ⟨_, hle, _, _, _⟩ := hinv; omega
      rw [write_full_spec rb v hfull]
      exact hinv
  | rd =>
    show rb_inv (ring_buffer_read rb (rb.buffer 0)).2.2
    by_cases h : 0 < rb.curr_num_values
    · exact (read_spec rb (rb.buffer 0) hinv h).2.2.1
    · have hz : rb.curr_num_values = 0 := by omega
      rw [read_empty_spec rb (rb.buffer 0) hz]
      exact hinv

theorem rb_run_inv : ∀ (ops : List (rb_op α)) (rb : ring_buffer α), rb_inv rb →
    rb_inv (rb_run rb ops)
  | [], _, hinv => hinv
  | op :: ops, rb, hinv => by
    show rb_inv (rb_run (rb_step rb op) ops)
    exact rb_run_inv ops _ (rb_step_inv rb op hinv)

theorem run_cycles_spec : ∀ (rounds : List (List α)) (rb : ring_buffer α), rb_inv rb →
    rb.curr_num_values = 0 → (∀ vs ∈ rounds, vs.length = rb.max_num_values) →
    (run_cycles rb rounds).2.1 = List.replicate rounds.flatten.length true ∧
    (run_cycles rb rounds).2.2 = rounds.flatten.map (fun v => (true, v))
  | [], rb, _, _, _ => by
    simp [run_cycles]
  | vs :: rest, rb, hinv, hz, hlen => by
    have hvs : vs.length = rb.max_num_values := hlen vs (by simp)
    have hfit : rb.curr_num_values + vs.length ≤ rb.max_num_values := by
      rw [hz, hvs]; omega
    obtain ⟨wflags, winv, wlist, _, wcnt, wmax⟩ := write_list_spec vs rb hinv hfit
    have hwn : (write_list rb vs).1.curr_num_values = vs.length := by
      rw [wcnt, hz]; omega
    obtain ⟨rres, rinv, rcnt, _, rmax⟩ := read_n_spec vs.length _ winv hwn
    have hlen' : ∀ us ∈ rest, us.length
        = (read_n (write_list rb vs).1 vs.length).1.max_num_values := by
      intro us hus
      rw [rmax, wmax]
      exact hlen us (by simp [hus])
    obtain ⟨ihflags, ihres⟩ := run_cycles_spec rest _ rinv rcnt hlen'
    simp only [run_cycles]
    constructor
    · rw [wflags, ihflags, List.flatten_cons, List.length_append, List.replicate_add]
    · rw [rres, ihres, wlist, rb_list_of_empty rb hz, List.nil_append,
        List.flatten_cons, List.map_append]

/-! ### Claim theorems -/

/-- C1 (FIFO law): on a freshly initialized, otherwise untouched buffer of
capacity `N > 0`, writing any sequence of `N` values succeeds at every write,
and `N` subsequent reads all succeed and deliver exactly the written values
in the same order. -/
theorem C1_fifo_law {α : Type} (N : Nat) (hN : 0 < N) (mem : Nat → α)
    (vs : List α) (hlen : vs.length = N) :
    (write_list (rb_init_state N mem) vs).2 = List.replicate N true ∧
    (read_n (write_list (rb_init_state N mem) vs).1 N).2
      = vs.map (fun v => (true, v)) := by
  have hinv0 := rb_init_state_inv N hN mem
  have hfit : (rb_init_state N mem).curr_num_values + vs.length
      ≤ (rb_init_state N mem).max_num_values := by
    simp [rb_init_state, hlen]
  obtain ⟨wflags, winv, wlist, _, wcnt, _⟩ := write_list_spec vs _ hinv0 hfit
  have hwn : (write_list (rb_init_state N mem) vs).1.curr_num_values = N := by
    rw [wcnt]; simp [rb_init_state, hlen]
  obtain ⟨rres, _, _, _, _⟩ := read_n_spec N _ winv hwn
  refine ⟨by rw [wflags, hlen], ?_⟩
  rw [rres, wlist, rb_list_of_empty _ rfl, List.nil_append]

/-- Witness for C1 at capacity 2 and the write sequence `[5, 7]`. -/
theorem C1_fifo_law_witness :
    0 < 2 ∧ ([5, 7] : List Int).length = 2 ∧
    ((write_list (rb_init_state 2 (fun _ => (0 : Int))) [5, 7]).2
        = List.replicate 2 true ∧
      (read_n (write_list (rb_init_state 2 (fun _ => (0 : Int))) [5, 7]).1 2).2
        = [5, 7].map (fun v => (true, v))) :=
  ⟨by decide, by decide, C1_fifo_law 2 (by decide) (fun _ => 0) [5, 7] (by decide)⟩

/-- C2 (write semantics): on an initialized buffer a write rejects and
changes nothing when `count = capacity`, and otherwise stores the value at
`tail`, touches no other slot, increments `count`, advances `tail` modulo
the capacity, leaves `head` alone, and returns `true`; in particular after
`N` successful writes on a fresh capacity-`N` buffer the next write fails
with `count = N` and `head = tail`. -/
theorem C2_write_semantics {α : Type} :
    (∀ (rb : ring_buffer α) (v : α), rb_inv rb →
      (rb.curr_num_values = rb.max_num_values → ring_buffer_write rb v = (false, rb)) ∧
      (rb.curr_num_values < rb.max_num_values →
        (ring_buffer_write rb v).1 = true ∧
        (ring_buffer_write rb v).2.buffer rb.tail = v ∧
        (∀ i, i ≠ rb.tail → (ring_buffer_write rb v).2.buffer i = rb.buffer i) ∧
        (ring_buffer_write rb v).2.curr_num_values = rb.curr_num_values + 1 ∧
        (ring_buffer_write rb v).2.tail = (rb.tail + 1) % rb.max_num_values ∧
        (ring_buffer_write rb v).2.head = rb.head)) ∧
    (∀ (N : Nat) (mem : Nat → α) (vs : List α) (v : α), 0 < N → vs.length = N →
      (write_list (rb_init_state N mem) vs).2 = List.replicate N true ∧
      ring_buffer_write (write_list (rb_init_state N mem) vs).1 v
        = (false, (write_list (rb_init_state N mem) vs).1) ∧
      (write_list (rb_init_state N mem) vs).1.curr_num_values = N ∧
      (write_list (rb_init_state N mem) vs).1.head
        = (write_list (rb_init_state N mem) vs).1.tail) := by
  constructor
  · intro rb v _
    refine ⟨write_full_spec rb v, ?_⟩
    intro hlt
    have hfull : ring_buffer_full rb = false := by
      simp [ring_buffer_full]; omega
    have hw : ring_buffer_write rb v =
        (true, { rb with
          buffer := fun i => if i = rb.tail then v else rb.buffer i
          curr_num_values := rb.curr_num_values + 1
          tail := (rb.tail + 1) % rb.max_num_values }) := by
      simp [ring_buffer_write, hfull]
    rw [hw]
    refine ⟨rfl, ?_, ?_, rfl, rfl, rfl⟩
    · show (if rb.tail = rb.tail then v else rb.buffer rb.tail) = v
      simp
    · intro i hi
      show (if i = rb.tail then v else rb.buffer i) = rb.buffer i
      simp [hi]
  · intro N mem vs v hN hlen
    have hinv0 := rb_init_state_inv N hN mem
    have hfit : (rb_init_state N mem).curr_num_values + vs.length
        ≤ (rb_init_state N mem).max_num_values := by
      simp [rb_init_state, hlen]
    obtain ⟨wflags, winv, _, whd, wcnt, wmax⟩ := write_list_spec vs _ hinv0 hfit
    have hcnt : (write_list (rb_init_state N mem) vs).1.curr_num_values = N := by
      rw [wcnt]; simp [rb_init_state, hlen]
    have hmax : (write_list (rb_init_state N mem) vs).1.max_num_values = N := by
      rw [wmax]; rfl
    have hhd : (write_list (rb_init_state N mem) vs).1.head = 0 := by
      rw [whd]; rfl
    obtain ⟨_, _, _, _, htl⟩ := winv
    refine ⟨by rw [wflags, hlen], write_full_spec _ v (by rw [hcnt, hmax]), hcnt, ?_⟩
    rw [hhd, htl, hhd, hcnt, hmax, Nat.zero_add, Nat.mod_self]

/-- Witness for C2: the full capacity-1 buffer rejects a write unchanged;
a fresh capacity-2 buffer accepts a write; after filling a fresh capacity-2
buffer, `head = tail`. -/
theorem C2_write_semantics_witness :
    ring_buffer_write (ring_buffer_write (rb_init_state 1 (fun _ => (0 : Int))) 3).2 5
      = (false, (ring_buffer_write (rb_init_state 1 (fun _ => (0 : Int))) 3).2) ∧
    (ring_buffer_write (rb_init_state 2 (fun _ => (0 : Int))) 5).1 = true ∧
    (write_list (rb_init_state 2 (fun _ => (0 : Int))) [5, 7]).1.head
      = (write_list (rb_init_state 2 (fun _ => (0 : Int))) [5, 7]).1.tail :=
  ⟨(C2_write_semantics.1 (ring_buffer_write (rb_init_state 1 (fun _ => (0 : Int))) 3).2 5
      (by decide)).1 (by decide),
   ((C2_write_semantics.1 (rb_init_state 2 (fun _ => (0 : Int))) 5
      (by decide)).2 (by decide)).1,
   (C2_write_semantics.2 2 (fun _ => 0) [5, 7] 9 (by decide) (by decide)).2.2.2⟩

/-- C3 (read semantics): on an initialized buffer a read on `count = 0`
returns `false` leaving the out-cell and the whole state unchanged, and on
`count > 0` returns `true` with the value at `head`, leaves the storage and
`tail` alone, decrements `count` and advances `head` modulo the capacity. -/
theorem C3_read_semantics {α : Type} (rb : ring_buffer α) (r0 : α) (hinv : rb_inv rb) :
    (rb.curr_num_values = 0 → ring_buffer_read rb r0 = (false, r0, rb)) ∧
    (0 < rb.curr_num_values →
      (ring_buffer_read rb r0).1 = true ∧
      (ring_buffer_read rb r0).2.1 = rb.buffer rb.head ∧
      (ring_buffer_read rb r0).2.2.buffer = rb.buffer ∧
      (ring_buffer_read rb r0).2.2.curr_num_values = rb.curr_num_values - 1 ∧
      (ring_buffer_read rb r0).2.2.head = (rb.head + 1) % rb.max_num_values ∧
      (ring_buffer_read rb r0).2.2.tail = rb.tail) := by
  refine ⟨read_empty_spec rb r0, ?_⟩
  intro hpos
  obtain ⟨hf, hv, _, _, htl, hcnt, _, hbuf⟩ := read_spec rb r0 hinv hpos
  have hemp : ring_buffer_empty rb = false := by
    simp [ring_buffer_empty]; omega
  have hhd : (ring_buffer_read rb r0).2.2.head = (rb.head + 1) % rb.max_num_values := by
    simp [ring_buffer_read, hemp]
  exact ⟨hf, hv, hbuf, hcnt, hhd, htl⟩

/-- Witness for C3: reading a fresh capacity-3 buffer fails and leaves the
out-cell 9 in place; reading after one write of 5 succeeds with value 5. -/
theorem C3_read_semantics_witness :
    ring_buffer_read (rb_init_state 3 (fun _ => (0 : Int))) 9
      = (false, 9, rb_init_state 3 (fun _ => (0 : Int))) ∧
    (ring_buffer_read (ring_buffer_write (rb_init_state 3 (fun _ => (0 : Int))) 5).2 9).1
      = true ∧
    (ring_buffer_read (ring_buffer_write (rb_init_state 3 (fun _ => (0 : Int))) 5).2 9).2.1
      = (ring_buffer_write (rb_init_state 3 (fun _ => (0 : Int))) 5).2.buffer
          (ring_buffer_write (rb_init_state 3 (fun _ => (0 : Int))) 5).2.head :=
  ⟨(C3_read_semantics (rb_init_state 3 (fun _ => (0 : Int))) 9 (by decide)).1 (by decide),
   ((C3_read_semantics (ring_buffer_write (rb_init_state 3 (fun _ => (0 : Int))) 5).2 9
      (by decide)).2 (by decide)).1,
   ((C3_read_semantics (ring_buffer_write (rb_init_state 3 (fun _ => (0 : Int))) 5).2 9
      (by decide)).2 (by decide)).2.1⟩

/-- C4 (state invariant): every state reached from a fresh buffer of
positive capacity by any finite sequence of writes and reads satisfies
`count ≤ capacity`, `head < capacity`, `tail < capacity` and
`tail = (head + count) mod capacity` (lower bounds are inherent to `Nat`);
moreover `ring_buffer_empty` holds exactly on `count = 0` and
`ring_buffer_full` exactly on `count = capacity`. -/
theorem C4_reachable_invariant {α : Type} (cap : Nat) (hcap : 0 < cap)
    (mem : Nat → α) (ops : List (rb_op α)) :
    rb_inv (rb_run (rb_init_state cap mem) ops) ∧
    (∀ rb' : ring_buffer α,
      (ring_buffer_empty rb' = true ↔ rb'.curr_num_values = 0) ∧
      (ring_buffer_full rb' = true ↔ rb'.curr_num_values = rb'.max_num_values)) := by
  refine ⟨rb_run_inv ops _ (rb_init_state_inv cap hcap mem), ?_⟩
  intro rb'
  constructor <;> simp [ring_buffer_empty, ring_buffer_full]

/-- Witness for C4 on a concrete capacity-2 run that hits full, empty and
wraparound. -/
theorem C4_reachable_invariant_witness :
    0 < 2 ∧
    rb_inv (rb_run (rb_init_state 2 (fun _ => (0 : Int)))
      [.wr 1, .wr 2, .wr 3, .rd, .wr 4, .rd, .rd, .rd]) ∧
    (ring_buffer_empty (rb_init_state 2 (fun _ => (0 : Int))) = true ↔
      (rb_init_state 2 (fun _ => (0 : Int))).curr_num_values = 0) :=
  ⟨by decide,
   (C4_reachable_invariant 2 (by decide) (fun _ => (0 : Int))
      [.wr 1, .wr 2, .wr 3, .rd, .wr 4, .rd, .rd, .rd]).1,
   ((C4_reachable_invariant 2 (by decide) (fun _ => (0 : Int)) []).2
      (rb_init_state 2 (fun _ => (0 : Int)))).1⟩

/-- C5 counterexample: `ring_buffer_init` with capacity 0 fails, yet the
mutex has already been initialized on that failure path (the C code runs
`pthread_mutex_init` before the capacity check and never destroys it), so
"on every failure path no resources are retained (neither the storage nor
the lock/guard is allocated or left initialized)" is false. -/
theorem C5_init_counterexample :
    (ring_buffer_init (rb_init_state 0 (fun _ => (0 : Int))) 0 true (fun _ => 0)).ok
      = false ∧
    (ring_buffer_init (rb_init_state 0 (fun _ => (0 : Int))) 0 true
      (fun _ => 0)).lock_created = true := by
  exact ⟨rfl, rfl⟩

/-- C5 (amended): init fails exactly when `capacity ≤ 0` or the allocation
fails; on failure no storage is retained, but the lock is initialized even
on failure paths (the mutex is set up before the capacity check); on
success it allocates storage for exactly `capacity` samples and produces
the zeroed state `head = tail = count = 0`. -/
theorem C5_init_semantics {α : Type} (rb0 : ring_buffer α) (capacity : Int)
    (alloc_ok : Bool) (mem : Nat → α) :
    ((ring_buffer_init rb0 capacity alloc_ok mem).ok = false ↔
      (capacity ≤ 0 ∨ alloc_ok = false)) ∧
    (ring_buffer_init rb0 capacity alloc_ok mem).lock_created = true ∧
    ((ring_buffer_init rb0 capacity alloc_ok mem).ok = false →
      (ring_buffer_init rb0 capacity alloc_ok mem).storage = none) ∧
    ((ring_buffer_init rb0 capacity alloc_ok mem).ok = true →
      (ring_buffer_init rb0 capacity alloc_ok mem).storage = some capacity.toNat ∧
      (ring_buffer_init rb0 capacity alloc_ok mem).state
        = rb_init_state capacity.toNat mem) := by
  by_cases h1 : capacity ≤ 0
  · simp [ring_buffer_init, h1]
  · by_cases h2 : alloc_ok = false
    · simp [ring_buffer_init, h1, h2]
    · simp [ring_buffer_init, h1, h2]

/-- Witness for C5 on a successful init of capacity 3 and a failed init of
capacity -1. -/
theorem C5_init_semantics_witness :
    (ring_buffer_init (rb_init_state 0 (fun _ => (0 : Int))) 3 true
      (fun _ => 7)).storage = some 3 ∧
    (ring_buffer_init (rb_init_state 0 (fun _ => (0 : Int))) 3 true
      (fun _ => 7)).state = rb_init_state 3 (fun _ => 7) ∧
    (ring_buffer_init (rb_init_state 0 (fun _ => (0 : Int))) (-1) true
      (fun _ => 7)).storage = none :=
  ⟨((C5_init_semantics (rb_init_state 0 (fun _ => (0 : Int))) 3 true
      (fun _ => 7)).2.2.2 (by decide)).1,
   ((C5_init_semantics (rb_init_state 0 (fun _ => (0 : Int))) 3 true
      (fun _ => 7)).2.2.2 (by decide)).2,
   (C5_init_semantics (rb_init_state 0 (fun _ => (0 : Int))) (-1) true
      (fun _ => 7)).2.2.1 (by decide)⟩

/-- C6 (wraparound correctness): starting from a fresh buffer of capacity
`C > 0` and repeatedly filling it with `C` values and draining it with `C`
reads (any number of cycles, so head and tail wrap as often as the rounds
demand), every write succeeds, every read succeeds, and the k-th read of
the whole run delivers the k-th written value: the full read sequence
equals the concatenation of the written rounds. -/
theorem C6_wraparound {α : Type} (C : Nat) (hC : 0 < C) (mem : Nat → α)
    (rounds : List (List α)) (hlen : ∀ vs ∈ rounds, vs.length = C) :
    (run_cycles (rb_init_state C mem) rounds).2.1
      = List.replicate rounds.flatten.length true ∧
    (run_cycles (rb_init_state C mem) rounds).2.2
      = rounds.flatten.map (fun v => (true, v)) := by
  refine run_cycles_spec rounds _ (rb_init_state_inv C hC mem) rfl ?_
  intro vs hvs
  exact hlen vs hvs

/-- Witness for C6: capacity 2, two full fill-drain cycles wrapping the
indices past the end twice. -/
theorem C6_wraparound_witness :
    0 < 2 ∧
    (∀ vs ∈ ([[1, 2], [3, 4]] : List (List Int)), vs.length = 2) ∧
    ((run_cycles (rb_init_state 2 (fun _ => (0 : Int))) [[1, 2], [3, 4]]).2.1
        = List.replicate ([[1, 2], [3, 4]] : List (List Int)).flatten.length true ∧
      (run_cycles (rb_init_state 2 (fun _ => (0 : Int))) [[1, 2], [3, 4]]).2.2
        = ([[1, 2], [3, 4]] : List (List Int)).flatten.map (fun v => (true, v))) :=
  ⟨by decide, by decide,
   C6_wraparound 2 (by decide) (fun _ => 0) [[1, 2], [3, 4]] (by decide)⟩

/-- C7 counterexample: on the reachable full capacity-1 buffer `crb7`
(holding the value 1), `write 2` is rejected and the following read
delivers 1, not 2, and leaves `count = 0` instead of restoring the
pre-write count 1 — so the round-trip property does not hold for every
buffer state. -/
theorem C7_round_trip_counterexample :
    rb_inv crb7 ∧
    ¬ ((ring_buffer_read (ring_buffer_write crb7 2).2 0).2.1 = 2 ∧
       (ring_buffer_read (ring_buffer_write crb7 2).2 0).2.2.curr_num_values
         = crb7.curr_num_values) := by
  decide

/-- C7 (amended): for every initialized buffer state that is empty
(`count = 0`), a write of `v` followed by a read succeeds on both calls,
delivers exactly the value `v` (the buffer applies no transformation, so
the value is returned unchanged — in particular within any epsilon), and
restores `count` to its pre-write value. -/
theorem C7_round_trip {α : Type} (rb : ring_buffer α) (v r0 : α)
    (hinv : rb_inv rb) (hz : rb.curr_num_values = 0) :
    (ring_buffer_write rb v).1 = true ∧
    (ring_buffer_read (ring_buffer_write rb v).2 r0).1 = true ∧
    (ring_buffer_read (ring_buffer_write rb v).2 r0).2.1 = v ∧
    (ring_buffer_read (ring_buffer_write rb v).2 r0).2.2.curr_num_values
      = rb.curr_num_values := by
  have hcap : 0 < rb.max_num_values := hinv.1
  have hlt : rb.curr_num_values < rb.max_num_values := by omega
  obtain ⟨hf, hinv', hlist, whd, wcnt, _⟩ := write_spec rb v hinv hlt
  have hpos : 0 < (ring_buffer_write rb v).2.curr_num_values := by omega
  obtain ⟨rf, rv, _, rlist, _, rcnt, _, _⟩ :=
    read_spec (ring_buffer_write rb v).2 r0 hinv' hpos
  refine ⟨hf, rf, ?_, by omega⟩
  rw [rv]
  rw [hlist, rb_list_of_empty rb hz, List.nil_append] at rlist
  exact ((List.cons_eq_cons.mp rlist).1).symm

/-- Witness for C7 on an empty capacity-2 buffer and the value 5. -/
theorem C7_round_trip_witness :
    rb_inv (rb_init_state 2 (fun _ => (0 : Int))) ∧
    ((ring_buffer_write (rb_init_state 2 (fun _ => (0 : Int))) 5).1 = true ∧
      (ring_buffer_read (ring_buffer_write (rb_init_state 2 (fun _ => (0 : Int))) 5).2 9).1
        = true ∧
      (ring_buffer_read (ring_buffer_write (rb_init_state 2 (fun _ => (0 : Int))) 5).2 9).2.1
        = 5 ∧
      (ring_buffer_read (ring_buffer_write
          (rb_init_state 2 (fun _ => (0 : Int))) 5).2 9).2.2.curr_num_values
        = (rb_init_state 2 (fun _ => (0 : Int))).curr_num_values) :=
  ⟨by decide,
   C7_round_trip (rb_init_state 2 (fun _ => (0 : Int))) 5 9 (by decide) (by decide)⟩

/-- C8 (destroy safety): `ring_buffer_destroy` on a NULL handle performs no
frees (a pure no-op), so destroy-then-null via `SAFE_DESTROY` followed by a
second destroy of the nulled handle frees nothing a second time (no double
free); on a live handle it frees the storage and destroys the lock. -/
theorem C8_destroy_safety {α : Type} (rb : ring_buffer α) :
    ring_buffer_destroy (none : Option (ring_buffer α))
      = { freed_storage := false, destroyed_lock := false, freed_struct := false } ∧
    (SAFE_DESTROY (some rb)).1 = none ∧
    ring_buffer_destroy (SAFE_DESTROY (some rb)).1
      = { freed_storage := false, destroyed_lock := false, freed_struct := false } ∧
    (ring_buffer_destroy (some rb)).freed_storage = true ∧
    (ring_buffer_destroy (some rb)).destroyed_lock = true :=
  ⟨rfl, rfl, rfl, rfl, rfl⟩

/-- C9 (overwrite equals write): `ring_buffer_overwrite` performs exactly
the same state update as `ring_buffer_write` and returns the same flag on
every state and value; despite its name and documentation it rejects (flag
`false`, state untouched) when `count = capacity`. -/
theorem C9_overwrite_eq_write {α : Type} (rb : ring_buffer α) (v : α) :
    ring_buffer_overwrite rb v = ring_buffer_write rb v ∧
    (rb.curr_num_values = rb.max_num_values →
      (ring_buffer_overwrite rb v).1 = false ∧ (ring_buffer_overwrite rb v).2 = rb) := by
  refine ⟨rfl, ?_⟩
  intro h
  have heq : ring_buffer_overwrite rb v = ring_buffer_write rb v := rfl
  rw [heq, write_full_spec rb v h]
  exact ⟨rfl, rfl⟩

/-- Witness for C9 on the full capacity-1 buffer reached by one write. -/
theorem C9_overwrite_eq_write_witness :
    (ring_buffer_overwrite (ring_buffer_write (rb_init_state 1 (fun _ => (0 : Int))) 3).2
        5).1 = false ∧
    (ring_buffer_overwrite (ring_buffer_write (rb_init_state 1 (fun _ => (0 : Int))) 3).2
        5).2 = (ring_buffer_write (rb_init_state 1 (fun _ => (0 : Int))) 3).2 :=
  (C9_overwrite_eq_write (ring_buffer_write (rb_init_state 1 (fun _ => (0 : Int))) 3).2
    5).2 (by decide)

/-- C10 (empty-read frame): when the buffer is empty, `ring_buffer_read`
returns `false` without writing through the out-parameter — the caller's
result cell keeps its prior content `r0`, no sentinel is stored — and the
buffer state is returned untouched. -/
theorem C10_read_empty_frame {α : Type} (rb : ring_buffer α) (r0 : α)
    (h : rb.curr_num_values = 0) :
    ring_buffer_read rb r0 = (false, r0, rb) :=
  read_empty_spec rb r0 h

/-- Witness for C10: an empty capacity-3 buffer with the out-cell holding 9. -/
theorem C10_read_empty_frame_witness :
    (rb_init_state 3 (fun _ => (0 : Int))).curr_num_values = 0 ∧
    ring_buffer_read (rb_init_state 3 (fun _ => (0 : Int))) 9
      = (false, 9, rb_init_state 3 (fun _ => (0 : Int))) :=
  ⟨rfl, C10_read_empty_frame (rb_init_state 3 (fun _ => (0 : Int))) 9 rfl⟩

end EEG
